import Mathlib

/-!
Verification development for the CPACS2GMSH meshing core of CEASIOMpy
(`ceasiompy/CPACS2GMSH/func/generategmesh.py` and
`ceasiompy/CPACS2GMSH/func/advancemeshing.py`).

The gmsh geometry/field kernel is an external collaborator: its queries
(center of mass, adjacency, plugin area, …) are modelled as explicit inputs
or oracle functions, and its mutable session state (registered fields,
physical groups, views) is modelled as explicit record state threaded through
the translated functions.  Python floats are modelled as exact rationals `ℚ`
(real-valued formulas involving `sqrt` are stated over `ℝ`).
-/

namespace Ceasiompy

/-! ## `ModelPart` (generategmesh.py, class ModelPart)

Entity references are dimtags `(dim, tag) : ℕ × ℤ`.  The Python class keeps
parallel lists of dimtags and of plain tags; we keep the same fields. -/

structure ModelPart where
  uid : String
  points : List (ℕ × ℤ) := []
  lines : List (ℕ × ℤ) := []
  surfaces : List (ℕ × ℤ) := []
  volume : List (ℕ × ℤ) := []
  points_tags : List ℤ := []
  lines_tags : List ℤ := []
  surfaces_tags : List ℤ := []
  volume_tag : List ℤ := []
  deriving DecidableEq, Repr

/-- Models Python `list(set(a).intersection(set(b)))`: the elements of `a`
that also occur in `b`, deduplicated (the Python result order is arbitrary;
we keep first-occurrence order of `a`). -/
def listInter {α : Type*} [DecidableEq α] (a b : List α) : List α :=
  (a.filter (· ∈ b)).dedup

/-- `ModelPart.clean_inside_entities` (generategmesh.py lines 121-141):
intersects the part's surfaces / lines / points (dimtags and plain tags)
with those of the final domain.  Note that the dimension-3 fields
`volume` / `volume_tag` are left untouched by the source. -/
def clean_inside_entities (p final_domain : ModelPart) : ModelPart :=
  { p with
    surfaces := listInter p.surfaces final_domain.surfaces
    lines := listInter p.lines final_domain.lines
    points := listInter p.points final_domain.points
    surfaces_tags := listInter p.surfaces_tags final_domain.surfaces_tags
    lines_tags := listInter p.lines_tags final_domain.lines_tags
    points_tags := listInter p.points_tags final_domain.points_tags }

/-! ## Wing trailing-edge refinement factor (advancemeshing.py, refine_wing_section)

A wing section is produced by the external wing-classification collaborator;
we record its mean chord and the tags of the leading/trailing edge curves to
refine.  When the section has 3 curves (truncated trailing edge) the source
queries the kernel for the three curve centers of mass and takes pairwise
Euclidean distances; those three kernel-provided distances are recorded here
as `d12`, `d13`, `d23`. -/

structure WingSectionM where
  mean_chord : ℚ
  lines_tags : List ℤ
  d12 : ℚ
  d13 : ℚ
  d23 : ℚ
  deriving DecidableEq, Repr

/-- `te_thickness = min(d12, d13, d23)` (advancemeshing.py line 271). -/
def te_thickness (sec : WingSectionM) : ℚ :=
  min sec.d12 (min sec.d13 sec.d23)

/-- The update of the local variable `refine` performed for one wing section
(advancemeshing.py lines 259-280): if the section's trailing edge is given by
3 curves and `mesh_size_wings / te_thickness > refine`, the factor is
overwritten with `2 * mesh_size_wings / te_thickness`; otherwise it is kept. -/
def update_refine (mesh_size_wings refine : ℚ) (sec : WingSectionM) : ℚ :=
  if sec.lines_tags.length = 3 then
    if mesh_size_wings / te_thickness sec > refine then
      2 * mesh_size_wings / te_thickness sec
    else refine
  else refine

/-! ## Python `for x in lst: ... lst.remove(x)` loops

Two reconciliation steps of `generate_gmsh` mutate the very list being
iterated.  CPython's list iterator keeps a position index into the (mutated)
list: removing the current element shifts the remainder left while the index
still advances, so the element immediately after a removed one is skipped.
Both loops are modelled index-explicitly; `fuel` bounds the number of
iterations, and since the index grows by one per iteration while the list
never grows, `length`-many iterations always reach the exit condition, so
the initial length is an exact fuel budget. -/

/-- A part as seen by the empty-children removal loop: its uid (abstracted
as a natural number) and its `children_dimtag` set. -/
abbrev PartChildren : Type := ℕ × Finset (ℕ × ℤ)

/-- Models generategmesh.py lines 401-404:
`for parent in aircraft_parts: if not parent.children_dimtag:
aircraft_parts.remove(parent)`, with CPython iterator semantics (see above);
`remove` deletes the first occurrence of the element. -/
def remove_childless_aux (fuel : ℕ) (parts : List PartChildren) (i : ℕ) :
    List PartChildren :=
  match fuel with
  | 0 => parts
  | fuel + 1 =>
    if h : i < parts.length then
      let parent := parts.get ⟨i, h⟩
      if parent.2 = ∅ then
        remove_childless_aux fuel (parts.erase parent) (i + 1)
      else
        remove_childless_aux fuel parts (i + 1)
    else parts

/-- The empty-children removal loop, started on the full parts list. -/
def remove_childless (parts : List PartChildren) : List PartChildren :=
  remove_childless_aux parts.length parts 0

/-- The truthiness test
`set(adj_lines_tags).intersection(set(aircraft.lines_tags))` of
generategmesh.py line 509; `adj` is the kernel adjacency oracle
(`gmsh.model.getAdjacencies`) giving the boundary curve tags of a surface. -/
def touches_aircraft (adj : ℕ × ℤ → List ℤ) (aircraft_lines_tags : List ℤ)
    (s : ℕ × ℤ) : Bool :=
  (adj s).any fun t => aircraft_lines_tags.contains t

/-- The four lists mutated by the symmetry-plane classification loop. -/
structure SymmetrySplit where
  farfield_surfaces : List (ℕ × ℤ)
  farfield_surfaces_tags : List ℤ
  symmetry_surfaces : List (ℕ × ℤ)
  symmetry_surfaces_tags : List ℤ
  deriving DecidableEq, Repr

/-- Models generategmesh.py lines 506-515: iterate over
`farfield_surfaces`; each surface with an adjacent curve owned by the
aircraft is removed from the far-field lists and appended to the symmetry
lists, with CPython iterator semantics (see above). -/
def symmetry_classify_aux (adj : ℕ × ℤ → List ℤ)
    (aircraft_lines_tags : List ℤ) (fuel : ℕ) (st : SymmetrySplit) (i : ℕ) :
    SymmetrySplit :=
  match fuel with
  | 0 => st
  | fuel + 1 =>
    if h : i < st.farfield_surfaces.length then
      let s := st.farfield_surfaces.get ⟨i, h⟩
      if touches_aircraft adj aircraft_lines_tags s then
        symmetry_classify_aux adj aircraft_lines_tags fuel
          { farfield_surfaces := st.farfield_surfaces.erase s
            farfield_surfaces_tags := st.farfield_surfaces_tags.erase s.2
            symmetry_surfaces := st.symmetry_surfaces ++ [s]
            symmetry_surfaces_tags := st.symmetry_surfaces_tags ++ [s.2] }
          (i + 1)
      else symmetry_classify_aux adj aircraft_lines_tags fuel st (i + 1)
    else st

/-- The symmetry-plane classification loop started on the far-field
candidate lists, with empty symmetry lists. -/
def symmetry_classify (adj : ℕ × ℤ → List ℤ) (aircraft_lines_tags : List ℤ)
    (farfield_surfaces : List (ℕ × ℤ)) (farfield_surfaces_tags : List ℤ) :
    SymmetrySplit :=
  symmetry_classify_aux adj aircraft_lines_tags farfield_surfaces.length
    ⟨farfield_surfaces, farfield_surfaces_tags, [], []⟩ 0

/-! ## Overlap detection (generategmesh.py lines 409-424)

The doubly nested loop over parts compares every ordered pair of positions
in the parts list (Python `part != other_part` is object identity, i.e.
position inequality); the parts list itself is not mutated here, only each
part's `children_dimtag` set and the `unwanted_children` list.  The state is
the list of `children_dimtag` sets (indexed by part position) together with
the accumulated `unwanted_children` list. -/

/-- The loop body for one ordered pair `(ab.1, ab.2)` of part positions:
if distinct, the shared children `shared = children[ab.1] ∩ children[ab.2]`
are removed from both sets (the `if shared.Nonempty` guard mirrors the
source's truthiness test; the result is the same when the intersection is
empty) and accumulated into the unwanted collection.  The source
accumulates a Python list (in arbitrary extension order) and deduplicates
it with `list(set(...))` at the end; since that final order is unspecified
we track the collected set directly as a `Finset`. -/
def overlap_pair_step {α : Type*} [DecidableEq α]
    (st : List (Finset α) × Finset α) (ab : ℕ × ℕ) :
    List (Finset α) × Finset α :=
  if ab.1 = ab.2 then st
  else
    ((if ((st.1.getD ab.1 ∅) ∩ (st.1.getD ab.2 ∅)).Nonempty then
        (st.1.set ab.1
            ((st.1.getD ab.1 ∅) \ ((st.1.getD ab.1 ∅) ∩ (st.1.getD ab.2 ∅)))).set
          ab.2
          ((st.1.getD ab.2 ∅) \ ((st.1.getD ab.1 ∅) ∩ (st.1.getD ab.2 ∅)))
      else st.1),
      st.2 ∪ ((st.1.getD ab.1 ∅) ∩ (st.1.getD ab.2 ∅)))

/-- The full doubly nested overlap-detection loop: fold the pair step over
all ordered index pairs in iteration order, starting from the given
children sets and an empty unwanted collection. -/
def overlap_scan {α : Type*} [DecidableEq α] (cs : List (Finset α)) :
    List (Finset α) × Finset α :=
  (List.range cs.length ×ˢ List.range cs.length).foldl overlap_pair_step (cs, ∅)

/-- The deduplicated unwanted children passed to the kernel removal call
(`unwanted_children = list(set(unwanted_children))`, line 424; the list
order produced by Python is arbitrary, so we keep the set). -/
def unwanted_children {α : Type*} [DecidableEq α] (cs : List (Finset α)) :
    Finset α :=
  (overlap_scan cs).2

/-- A concrete adjacency oracle for the symmetry-classification scenario:
far-field candidate surface `(2, 10)` is bounded by curve `100` and
candidate `(2, 11)` by curve `101`. -/
def sym_adj_example : ℕ × ℤ → List ℤ := fun s =>
  if s = (2, 10) then [100] else if s = (2, 11) then [101] else []

/-! ## Mesh-sizing field bookkeeping (advancemeshing.py)

The `mesh_fields` dict (counter `nbfields`, leaf list `restrict_fields`) is
mutated in place by every field-building function; the gmsh field kernel is
modelled by the log `added` of indices passed to `field.add` (in call order)
and the `background` field index.  The numeric/string field properties set
via `setNumber`/`setNumbers`/`setString` do not affect this bookkeeping
state and are not tracked. -/

structure FieldState where
  nbfields : ℕ
  restrict_fields : List ℕ
  added : List ℕ
  background : Option ℕ
  deriving DecidableEq, Repr

/-- The idiom `mesh_fields["nbfields"] += 1;
gmsh.model.mesh.field.add(kind, mesh_fields["nbfields"])`: increment the
counter, then register a kernel field at the freshly incremented index. -/
def addField (s : FieldState) : FieldState :=
  { s with nbfields := s.nbfields + 1, added := s.added ++ [s.nbfields + 1] }

/-- `distance_field` (advancemeshing.py lines 40-73).  The counter increment
and `field.add` happen first; a dimension outside {1, 2} then raises
`ValueError`.  As the Python dict is mutated in place, the error path
returns the mutated state together with the error. -/
def distance_field (s : FieldState) (dim : ℕ) (object_tags : List ℤ) :
    FieldState × Option String :=
  (addField s,
    if dim = 1 then none
    else if dim = 2 then none
    else some "Dimension must be 1 or 2")

/-- `restrict_fields` (advancemeshing.py lines 76-118).  The counter
increment and `field.add` happen first; `infield` defaults to the previous
index (set via `setNumber`, untracked); a dimension outside {2, 3} raises
`ValueError` before the new index is appended to the `restrict_fields`
leaf list, so on the error path the leaf list is unchanged while the
counter and the kernel registration are not rolled back. -/
def restrict_fields (s : FieldState) (dim : ℕ) (object_tags : List ℤ)
    (infield : Option ℕ := none) : FieldState × Option String :=
  if dim = 2 ∨ dim = 3 then
    ({ addField s with restrict_fields := s.restrict_fields ++ [s.nbfields + 1] },
      none)
  else (addField s, some "Dimension must be 2 or 3")

/-- `min_fields` (advancemeshing.py lines 121-154): allocate one "Min"
field over the accumulated restrict fields and set it as the background
mesh field (the three `Mesh.MeshSize*` kernel options are untracked). -/
def min_fields (s : FieldState) : FieldState :=
  { addField s with background := some (s.nbfields + 1) }

/-- One iteration of the wing-section loop of `refine_wing_section`
(advancemeshing.py lines 253-317): update the local `refine` factor from
the trailing-edge data, then build distance → MathEval (its expression
embeds the updated `refine`) → two restricts, and distance → Threshold →
restrict. -/
def refine_wing_section_step (mesh_size_wings : ℚ)
    (aircraft_surfaces_tags final_domain_volume_tag surfaces_wing : List ℤ)
    (st : FieldState × ℚ) (sec : WingSectionM) : FieldState × ℚ :=
  let refine := update_refine mesh_size_wings st.2 sec
  let s1 := (distance_field st.1 1 sec.lines_tags).1
  let s2 := addField s1
  let math_eval_field := s2.nbfields
  let s3 := (restrict_fields s2 2 aircraft_surfaces_tags).1
  let s4 := (restrict_fields s3 3 final_domain_volume_tag (some math_eval_field)).1
  let s5 := (distance_field s4 1 sec.lines_tags).1
  let s6 := addField s5
  let s7 := (restrict_fields s6 2 surfaces_wing).1
  (s7, refine)

/-- `refine_wing_section` (advancemeshing.py lines 190-330): fold the
section step over the wing's sections; the local variable `refine` is
carried from one section to the next and never reset. -/
def refine_wing_section (s : FieldState) (final_domain_volume_tag : List ℤ)
    (aircraft_surfaces_tags surfaces_wing : List ℤ)
    (wing_sections : List WingSectionM) (mesh_size_wings refine : ℚ) :
    FieldState × ℚ :=
  wing_sections.foldl
    (refine_wing_section_step mesh_size_wings aircraft_surfaces_tags
      final_domain_volume_tag surfaces_wing)
    (s, refine)

/-- The per-section effective refinement factors of one
`refine_wing_section` call, in processing order: the factor embedded in
each section's MathEval expression (the scan of `update_refine` along the
sections). -/
def refine_wing_section_refines (mesh_size_wings refine : ℚ)
    (wing_sections : List WingSectionM) : List ℚ :=
  (wing_sections.scanl (fun r sec => update_refine mesh_size_wings r sec)
    refine).tail

/-- `set_fuselage_mesh` (advancemeshing.py lines 333-365): distance field
from the part surfaces, threshold clamped to the fuselage size, restrict
to the part surfaces. -/
def set_fuselage_mesh (s : FieldState) (surfaces_tags : List ℤ)
    (mesh_size_fuselage : ℚ) : FieldState :=
  let s1 := (distance_field s 2 surfaces_tags).1
  let s2 := addField s1
  (restrict_fields s2 2 surfaces_tags).1

/-- `set_farfield_mesh` (advancemeshing.py lines 368-447): per aircraft
part (given by its surface tags and nominal mesh size), distance →
MathEval growth law → restrict to the domain volume, then distance →
Threshold clamped to the far-field size → restrict to the domain volume. -/
def set_farfield_mesh (s : FieldState) (aircraft_parts : List (List ℤ × ℚ))
    (mesh_size_farfield aircraft_charact_length : ℚ)
    (final_domain_volume_tag : List ℤ) : FieldState :=
  aircraft_parts.foldl
    (fun s part =>
      let s1 := (distance_field s 2 part.1).1
      let s2 := addField s1
      let s3 := (restrict_fields s2 3 final_domain_volume_tag).1
      let s4 := (distance_field s3 2 part.1).1
      let s5 := addField s4
      (restrict_fields s5 3 final_domain_volume_tag).1)
    s

/-- `refine_small_surfaces` (advancemeshing.py lines 450-543): each part
surface comes with its kernel-measured area (the `compute_area` oracle);
a surface whose area is below `nb_min_triangle * mesh_triangle_surf`
(where `mesh_triangle_surf` is the precomputed float
`(3**0.5 / 4) * part.mesh_size**2`, passed here as a rational) is
collected and triggers distance → Threshold → restrict (surface) →
MathEval → restrict (volume). -/
def refine_small_surfaces (s : FieldState) (part_surfaces : List (ℤ × ℚ))
    (mesh_triangle_surf : ℚ) (nb_min_triangle : ℕ)
    (final_domain_volume_tag : List ℤ) : List ℤ × FieldState :=
  part_surfaces.foldl
    (fun acc surf =>
      if surf.2 < nb_min_triangle * mesh_triangle_surf then
        let s1 := (distance_field acc.2 2 [surf.1]).1
        let s2 := addField s1
        let s3 := (restrict_fields s2 2 [surf.1]).1
        let s4 := addField s3
        let s5 := (restrict_fields s4 3 final_domain_volume_tag).1
        (acc.1 ++ [surf.1], s5)
      else acc)
    ([], s)

/-- The inline background-field block of `generate_gmsh` (generategmesh.py
lines 593-604), textually duplicating `min_fields`: allocate the "Min"
field over the restrict leaves and set it as background. -/
def background_mesh_field (s : FieldState) : FieldState :=
  { addField s with background := some (s.nbfields + 1) }

/-- One call of a sizing-field composition routine sharing the
`mesh_fields` state. -/
inductive FieldOp where
  | distance (dim : ℕ) (object_tags : List ℤ)
  | restrict (dim : ℕ) (object_tags : List ℤ) (infield : Option ℕ)
  | minimum
  | refineWing (final_domain_volume_tag aircraft_surfaces_tags
      surfaces_wing : List ℤ) (wing_sections : List WingSectionM)
      (mesh_size_wings refine : ℚ)
  | fuselage (surfaces_tags : List ℤ) (mesh_size_fuselage : ℚ)
  | farfield (aircraft_parts : List (List ℤ × ℚ))
      (mesh_size_farfield aircraft_charact_length : ℚ)
      (final_domain_volume_tag : List ℤ)
  | smallSurfaces (part_surfaces : List (ℤ × ℚ)) (mesh_triangle_surf : ℚ)
      (nb_min_triangle : ℕ) (final_domain_volume_tag : List ℤ)
  | backgroundMin

/-- Apply one composition routine to the shared state. -/
def applyFieldOp (s : FieldState) : FieldOp → FieldState
  | .distance dim tags => (distance_field s dim tags).1
  | .restrict dim tags infield => (restrict_fields s dim tags infield).1
  | .minimum => min_fields s
  | .refineWing dv asurf wsurf secs mesh refine =>
      (refine_wing_section s dv asurf wsurf secs mesh refine).1
  | .fuselage tags size => set_fuselage_mesh s tags size
  | .farfield parts msf acl dv => set_farfield_mesh s parts msf acl dv
  | .smallSurfaces surfs mts nb dv => (refine_small_surfaces s surfs mts nb dv).2
  | .backgroundMin => background_mesh_field s

/-- `mesh_fields = {"nbfields": 0, "restrict_fields": []}` (generategmesh.py
line 562), with an empty kernel field registry. -/
def initial_mesh_fields : FieldState := ⟨0, [], [], none⟩

/-- One full sizing-field composition run: any sequence of routine calls
sharing the one `mesh_fields` state from its initialization. -/
def runFieldOps (ops : List FieldOp) : FieldState :=
  ops.foldl applyFieldOp initial_mesh_fields

/-- Bookkeeping invariant of the shared field state: the kernel add-log is
duplicate-free, every registered index is at most the counter, and the
counter equals the number of `field.add` calls made. -/
def GoodFields (s : FieldState) : Prop :=
  s.added.Nodup ∧ (∀ i ∈ s.added, i ≤ s.nbfields) ∧
    s.nbfields = s.added.length

/-- Wing sections for the carried-override scenario: a thin truncated
section (thickness 1/100) followed by a thick truncated section
(thickness 1/5). -/
def truncated_section_thin : WingSectionM := ⟨1, [1, 2, 3], 1, 1, 1/100⟩

/-- See `truncated_section_thin`. -/
def truncated_section_thick : WingSectionM := ⟨1, [4, 5, 6], 1, 1, 1/5⟩

/-! ## `compute_area` and the kernel session (advancemeshing.py lines 157-187)

The gmsh session state touched by `compute_area`: the physical groups, the
result views (each view together with the scalar datum that
`getListData(view)` would report last), and fresh-tag counters for both.
The area plugin is an oracle `plugin_area` mapping the surface tag to the
measured area; `plugin.run("MeshVolume")` appends one output view holding
that value. -/

structure GmshSession where
  physical_groups : List (ℕ × ℤ)
  views : List (ℕ × ℚ)
  next_group : ℤ
  next_view : ℕ
  deriving DecidableEq, Repr

/-- `compute_area` (advancemeshing.py lines 157-187), in source order:
create a physical group over the surface; run the area plugin (appending
its output view); read the area as the last datum of the last view
(`views[-1]`, `data[-1][-1]`); `gmsh.view.remove(views)` — which removes
every view returned by `gmsh.view.getTags()`, not only the plugin's output
view; finally remove the created physical group. -/
def compute_area (plugin_area : ℤ → ℚ) (s : GmshSession) (surface_tag : ℤ) :
    GmshSession × ℚ :=
  let surface_groupe := s.next_group
  let s1 : GmshSession :=
    { s with physical_groups := s.physical_groups ++ [(2, surface_groupe)]
             next_group := surface_groupe + 1 }
  let s2 : GmshSession :=
    { s1 with views := s1.views ++ [(s1.next_view, plugin_area surface_tag)]
              next_view := s1.next_view + 1 }
  let area := (s2.views.getLastD (0, 0)).2
  let s3 : GmshSession := { s2 with views := [] }
  let s4 : GmshSession :=
    { s3 with physical_groups :=
        s3.physical_groups.filter (fun p => p ≠ (2, surface_groupe)) }
  (s4, area)

/-! ## Small-surface refinement formulas (advancemeshing.py lines 498-510)

The Python floats are modelled over the reals; `3**0.5` is the exact
`Real.sqrt 3`, while the hard-coded literal `0.43301270` is the exact
rational `43301270 / 10^8`. -/

/-- The flag condition `area < nb_min_triangle * mesh_triangle_surf` with
`mesh_triangle_surf = (3**0.5 / 4) * (part.mesh_size**2)` (lines 499-506). -/
def surface_flagged (area : ℚ) (nb_min_triangle : ℕ) (mesh_size : ℝ) : Prop :=
  (area : ℝ) < nb_min_triangle * (Real.sqrt 3 / 4 * mesh_size ^ 2)

/-- The square of
`new_mesh_size = ((area / nb_min_triangle) / 0.43301270) ** 0.5`
(line 510); the square root itself is applied in the theorem statements. -/
def new_mesh_size_sq (area : ℚ) (nb_min_triangle : ℕ) : ℚ :=
  (area / nb_min_triangle) / (43301270 / 100000000)

end Ceasiompy

namespace Ceasiompy

lemma listInter_subset {α : Type*} [DecidableEq α] (a b : List α) :
    listInter a b ⊆ b := by
  intro x hx
  have hx' := List.mem_dedup.mp hx
  simpa using (List.mem_filter.mp hx').2

/-- **C1 (amended).** `clean_inside_entities` leaves every dimension-0/1/2
owned entity set (points, lines, surfaces, and their tag lists) a subset of
the final domain's corresponding set, but it does not touch the
dimension-3 sets `volume` / `volume_tag`, which are left exactly as they
were (and hence need not be subsets of the final domain's volume). -/
theorem clean_inside_entities_owned_subset (p fd : ModelPart) :
    (clean_inside_entities p fd).points ⊆ fd.points ∧
    (clean_inside_entities p fd).lines ⊆ fd.lines ∧
    (clean_inside_entities p fd).surfaces ⊆ fd.surfaces ∧
    (clean_inside_entities p fd).points_tags ⊆ fd.points_tags ∧
    (clean_inside_entities p fd).lines_tags ⊆ fd.lines_tags ∧
    (clean_inside_entities p fd).surfaces_tags ⊆ fd.surfaces_tags ∧
    (clean_inside_entities p fd).volume = p.volume ∧
    (clean_inside_entities p fd).volume_tag = p.volume_tag := by
  refine ⟨listInter_subset _ _, listInter_subset _ _, listInter_subset _ _,
    listInter_subset _ _, listInter_subset _ _, listInter_subset _ _, rfl, rfl⟩

/-- **C1 (counterexample).** The claim "for every dimension 0-3 the part's
owned entity sets are a subset of the final domain's" fails at dimension 3:
for a part owning the (removed) child volume `(3, 2)` while the final domain
volume is `(3, 1)`, after `clean_inside_entities` the part still owns
`(3, 2)`, which is not among the final domain's volumes. -/
theorem clean_inside_entities_volume_not_subset :
    (3, (2 : ℤ)) ∈ (clean_inside_entities
        { uid := "wing", volume := [(3, 2)], volume_tag := [2],
          surfaces := [(2, 7)], surfaces_tags := [7] }
        { uid := "fluid", volume := [(3, 1)], volume_tag := [1],
          surfaces := [(2, 7)], surfaces_tags := [7] }).volume ∧
    (3, (2 : ℤ)) ∉
      ({ uid := "fluid", volume := [(3, 1)], volume_tag := [1],
         surfaces := [(2, 7)], surfaces_tags := [7] } : ModelPart).volume := by
  decide

/-- **C2.** Truncation override of the wing refinement factor: for a section
whose trailing edge is given by 3 curves with center-of-mass distances of
minimum `t = te_thickness`, if `mesh_size_wings / t > refine` the effective
factor equals `2 * mesh_size_wings / t` and is strictly greater than
`refine`, otherwise it is `refine` unchanged; and on the concrete scenario
(distances 1, 1.02, 0.02 with `mesh_size_wings = 0.2`, `refine = 4`) the
effective factor is 20. -/
theorem update_refine_truncation_override (mesh_size_wings refine : ℚ)
    (sec : WingSectionM) (h3 : sec.lines_tags.length = 3)
    (hm : 0 < mesh_size_wings) (ht : 0 < te_thickness sec) :
    (mesh_size_wings / te_thickness sec > refine →
      update_refine mesh_size_wings refine sec =
          2 * mesh_size_wings / te_thickness sec ∧
        refine < update_refine mesh_size_wings refine sec) ∧
    (¬ mesh_size_wings / te_thickness sec > refine →
      update_refine mesh_size_wings refine sec = refine) ∧
    update_refine (1/5) 4 ⟨1, [1, 2, 3], 1, 51/50, 1/50⟩ = 20 := by
  have hq : 0 < mesh_size_wings / te_thickness sec := div_pos hm ht
  refine ⟨fun hover => ?_, fun hnot => ?_, by norm_num [update_refine, te_thickness]⟩
  · have heq : update_refine mesh_size_wings refine sec =
        2 * mesh_size_wings / te_thickness sec := by
      simp [update_refine, h3, hover]
    refine ⟨heq, ?_⟩
    rw [heq, mul_div_assoc]
    nlinarith
  · simp [update_refine, h3, hnot]

/-- **C2 (witness).** The concrete scenario of the claim: distances
`{1, 51/50, 1/50}` (i.e. 1.0, 1.02, 0.02), `mesh_size_wings = 1/5`,
`refine = 4`: the override fires and the effective factor is 20. -/
theorem update_refine_truncation_override_witness :
    ((1 : ℚ)/5) / te_thickness ⟨1, [1, 2, 3], 1, 51/50, 1/50⟩ > 4 ∧
    update_refine (1/5) 4 ⟨1, [1, 2, 3], 1, 51/50, 1/50⟩ =
      2 * (1/5) / te_thickness ⟨1, [1, 2, 3], 1, 51/50, 1/50⟩ ∧
    (4 : ℚ) < update_refine (1/5) 4 ⟨1, [1, 2, 3], 1, 51/50, 1/50⟩ := by
  have h := update_refine_truncation_override (1/5) 4
    ⟨1, [1, 2, 3], 1, 51/50, 1/50⟩ (by decide)
    (by norm_num) (by norm_num [te_thickness])
  have hgt : ((1 : ℚ)/5) / te_thickness ⟨1, [1, 2, 3], 1, 51/50, 1/50⟩ > 4 := by
    norm_num [te_thickness]
  exact ⟨hgt, (h.1 hgt).1, (h.1 hgt).2⟩

/-- **C4 (code evaluation at the failing input).** With three parts where
the first two have empty children sets, the removal loop deletes part `0`,
the iterator then skips part `1` (the list shifted left under it), and part
`1` — whose children set is empty — survives.  The claim "the surviving
list contains exactly those parts with a non-empty children set" is
therefore violated by the code. -/
theorem remove_childless_skips_after_removal :
    remove_childless [(0, (∅ : Finset (ℕ × ℤ))), (1, ∅), (2, {(3, 5)})] =
      [(1, ∅), (2, {(3, 5)})] ∧
    (1, (∅ : Finset (ℕ × ℤ))) ∈
      remove_childless [(0, (∅ : Finset (ℕ × ℤ))), (1, ∅), (2, {(3, 5)})] := by
  decide

/-- **C3 (code evaluation at the failing input).** Two far-field candidate
surfaces `(2,10)` and `(2,11)` both have an adjacent curve owned by the
aircraft (curves `100` and `101`).  The loop reclassifies `(2,10)` as a
symmetry surface, but removing it shifts the list under the iterator, so
`(2,11)` is skipped and stays classified as far-field even though it
touches the aircraft — contradicting the claim that every touching
candidate is classified as a symmetry surface. -/
theorem symmetry_classify_skips_after_removal :
    symmetry_classify sym_adj_example [100, 101] [(2, 10), (2, 11)] [10, 11] =
      ⟨[(2, 11)], [11], [(2, 10)], [10]⟩ ∧
    touches_aircraft sym_adj_example [100, 101] (2, 11) = true := by
  decide

lemma getD_empty_of_le {α : Type*} (l : List (Finset α)) {k : ℕ}
    (h : l.length ≤ k) : l.getD k ∅ = ∅ := by
  simp [List.getD_eq_getElem?_getD, List.getElem?_eq_none h]

lemma getD_set_self {α : Type*} (l : List (Finset α)) {i : ℕ}
    (h : i < l.length) (x : Finset α) : (l.set i x).getD i ∅ = x := by
  simp [List.getD_eq_getElem?_getD, List.getElem?_set_self h]

lemma getD_set_ne {α : Type*} (l : List (Finset α)) {i j : ℕ} (h : i ≠ j)
    (x : Finset α) : (l.set i x).getD j ∅ = l.getD j ∅ := by
  simp [List.getD_eq_getElem?_getD, List.getElem?_set_ne h]

lemma overlap_pair_step_length {α : Type*} [DecidableEq α]
    (st : List (Finset α) × Finset α) (p : ℕ × ℕ) :
    (overlap_pair_step st p).1.length = st.1.length := by
  unfold overlap_pair_step
  split
  · rfl
  · split <;> simp

lemma overlap_pair_step_fst {α : Type*} [DecidableEq α]
    (st : List (Finset α) × Finset α) (a b : ℕ) :
    (overlap_pair_step st (a, b)).1 =
      if a = b then st.1
      else if ((st.1.getD a ∅) ∩ (st.1.getD b ∅)).Nonempty then
        (st.1.set a
            ((st.1.getD a ∅) \ ((st.1.getD a ∅) ∩ (st.1.getD b ∅)))).set b
          ((st.1.getD b ∅) \ ((st.1.getD a ∅) ∩ (st.1.getD b ∅)))
      else st.1 := by
  by_cases hab : a = b <;>
    by_cases hne : ((st.1.getD a ∅) ∩ (st.1.getD b ∅)).Nonempty <;>
    simp [overlap_pair_step, hab, hne]

lemma overlap_pair_step_snd {α : Type*} [DecidableEq α]
    (st : List (Finset α) × Finset α) (a b : ℕ) :
    (overlap_pair_step st (a, b)).2 =
      if a = b then st.2
      else st.2 ∪ ((st.1.getD a ∅) ∩ (st.1.getD b ∅)) := by
  by_cases hab : a = b <;> simp [overlap_pair_step, hab]

/-- Each children set only shrinks under one pair step. -/
lemma overlap_pair_step_subset {α : Type*} [DecidableEq α]
    (st : List (Finset α) × Finset α) (p : ℕ × ℕ) (k : ℕ) :
    (overlap_pair_step st p).1.getD k ∅ ⊆ st.1.getD k ∅ := by
  obtain ⟨a, b⟩ := p
  by_cases hlen : k < st.1.length
  · rw [overlap_pair_step_fst]
    by_cases hab : a = b
    · rw [if_pos hab]
    · rw [if_neg hab]
      by_cases hne : ((st.1.getD a ∅) ∩ (st.1.getD b ∅)).Nonempty
      · rw [if_pos hne]
        by_cases hkb : b = k
        · subst hkb
          rw [getD_set_self _ (by simpa using hlen)]
          exact Finset.sdiff_subset
        · rw [getD_set_ne _ hkb]
          by_cases hka : a = k
          · subst hka
            rw [getD_set_self _ hlen]
            exact Finset.sdiff_subset
          · rw [getD_set_ne _ hka]
      · rw [if_neg hne]
  · have hk : (overlap_pair_step st (a, b)).1.length ≤ k := by
      rw [overlap_pair_step_length]; omega
    rw [getD_empty_of_le _ hk]
    exact Finset.empty_subset _

/-- After its own pair has been processed, the two children sets are
disjoint. -/
lemma overlap_pair_step_disjoint_self {α : Type*} [DecidableEq α]
    (st : List (Finset α) × Finset α) (a b : ℕ) (hab : a ≠ b) :
    (overlap_pair_step st (a, b)).1.getD a ∅ ∩
      (overlap_pair_step st (a, b)).1.getD b ∅ = ∅ := by
  by_cases ha : a < st.1.length
  · by_cases hb : b < st.1.length
    · rw [overlap_pair_step_fst, if_neg hab]
      by_cases hne : ((st.1.getD a ∅) ∩ (st.1.getD b ∅)).Nonempty
      · rw [if_pos hne, getD_set_ne _ (Ne.symm hab), getD_set_self _ ha,
          getD_set_self _ (by simpa using hb)]
        ext x
        simp only [Finset.mem_inter, Finset.mem_sdiff, Finset.not_mem_empty,
          iff_false]
        tauto
      · rw [if_neg hne]
        exact Finset.not_nonempty_iff_eq_empty.mp hne
    · have hk : (overlap_pair_step st (a, b)).1.length ≤ b := by
        rw [overlap_pair_step_length]; omega
      rw [getD_empty_of_le _ hk, Finset.inter_empty]
  · have hk : (overlap_pair_step st (a, b)).1.length ≤ a := by
      rw [overlap_pair_step_length]; omega
    rw [getD_empty_of_le _ hk, Finset.empty_inter]

/-- Every removal from a children set is recorded in the unwanted
collection. -/
lemma overlap_pair_step_recorded {α : Type*} [DecidableEq α]
    (cs0 : List (Finset α)) (st : List (Finset α) × Finset α) (p : ℕ × ℕ)
    (h : ∀ v k, v ∈ cs0.getD k ∅ → v ∉ st.1.getD k ∅ → v ∈ st.2) :
    ∀ v k, v ∈ cs0.getD k ∅ → v ∉ (overlap_pair_step st p).1.getD k ∅ →
      v ∈ (overlap_pair_step st p).2 := by
  obtain ⟨a, b⟩ := p
  intro v k hv0 hv'
  by_cases hvst : v ∈ st.1.getD k ∅
  · -- the removal happened during this step, so v is in the shared set
    have hlen : k < st.1.length := by
      by_contra hk
      push_neg at hk
      rw [getD_empty_of_le _ hk] at hvst
      exact Finset.not_mem_empty v hvst
    rw [overlap_pair_step_fst] at hv'
    rw [overlap_pair_step_snd]
    by_cases hab : a = b
    · rw [if_pos hab] at hv'
      exact absurd hvst hv'
    · rw [if_neg hab] at hv' ⊢
      by_cases hne : ((st.1.getD a ∅) ∩ (st.1.getD b ∅)).Nonempty
      · rw [if_pos hne] at hv'
        refine Finset.mem_union_right _ ?_
        by_cases hkb : b = k
        · subst hkb
          rw [getD_set_self _ (by simpa using hlen)] at hv'
          have himp := Finset.mem_sdiff.not.mp hv'
          push_neg at himp
          exact himp hvst
        · rw [getD_set_ne _ hkb] at hv'
          by_cases hka : a = k
          · subst hka
            rw [getD_set_self _ hlen] at hv'
            have himp := Finset.mem_sdiff.not.mp hv'
            push_neg at himp
            exact himp hvst
          · rw [getD_set_ne _ hka] at hv'
            exact absurd hvst hv'
      · rw [if_neg hne] at hv'
        exact absurd hvst hv'
  · -- v was already gone before this step, so it is already recorded
    have hmem := h v k hv0 hvst
    rw [overlap_pair_step_snd]
    by_cases hab : a = b
    · rwa [if_pos hab]
    · rw [if_neg hab]
      exact Finset.mem_union_left _ hmem

lemma foldl_overlap_length {α : Type*} [DecidableEq α]
    (pairs : List (ℕ × ℕ)) (st : List (Finset α) × Finset α) :
    (pairs.foldl overlap_pair_step st).1.length = st.1.length := by
  induction pairs generalizing st with
  | nil => rfl
  | cons p ps ih => rw [List.foldl_cons, ih, overlap_pair_step_length]

lemma foldl_overlap_subset {α : Type*} [DecidableEq α]
    (pairs : List (ℕ × ℕ)) (st : List (Finset α) × Finset α) (k : ℕ) :
    (pairs.foldl overlap_pair_step st).1.getD k ∅ ⊆ st.1.getD k ∅ := by
  induction pairs generalizing st with
  | nil => exact fun _ h => h
  | cons p ps ih =>
    rw [List.foldl_cons]
    exact (ih _).trans (overlap_pair_step_subset st p k)

lemma foldl_overlap_disjoint {α : Type*} [DecidableEq α]
    (pairs : List (ℕ × ℕ)) (st : List (Finset α) × Finset α) :
    ∀ a b, (a, b) ∈ pairs → a ≠ b →
      (pairs.foldl overlap_pair_step st).1.getD a ∅ ∩
        (pairs.foldl overlap_pair_step st).1.getD b ∅ = ∅ := by
  induction pairs generalizing st with
  | nil => intro a b h; exact absurd h (List.not_mem_nil _)
  | cons p ps ih =>
    intro a b hmem hab
    rw [List.foldl_cons]
    rcases List.mem_cons.mp hmem with heq | htail
    · subst heq
      have h0 := overlap_pair_step_disjoint_self st a b hab
      have h1 := foldl_overlap_subset ps (overlap_pair_step st (a, b)) a
      have h2 := foldl_overlap_subset ps (overlap_pair_step st (a, b)) b
      have h3 := Finset.inter_subset_inter h1 h2
      rw [h0] at h3
      exact Finset.subset_empty.mp h3
    · exact ih _ a b htail hab

lemma foldl_overlap_recorded {α : Type*} [DecidableEq α]
    (pairs : List (ℕ × ℕ)) (cs0 : List (Finset α))
    (st : List (Finset α) × Finset α)
    (h : ∀ v k, v ∈ cs0.getD k ∅ → v ∉ st.1.getD k ∅ → v ∈ st.2) :
    ∀ v k, v ∈ cs0.getD k ∅ →
      v ∉ (pairs.foldl overlap_pair_step st).1.getD k ∅ →
      v ∈ (pairs.foldl overlap_pair_step st).2 := by
  induction pairs generalizing st with
  | nil => exact h
  | cons p ps ih =>
    rw [List.foldl_cons]
    exact ih _ (overlap_pair_step_recorded cs0 st p h)

lemma overlap_scan_length {α : Type*} [DecidableEq α]
    (cs : List (Finset α)) : (overlap_scan cs).1.length = cs.length := by
  rw [overlap_scan, foldl_overlap_length]

/-- **C5 (amended).** After the pairwise overlap-detection loop: the
children sets of any two distinct parts are disjoint; every child volume
present in more than one part's children set ends up in the (duplicate-free)
unwanted collection passed to the kernel removal call and remains in at
most one part's set (it is removed from all sharing parts except possibly
one — with three or more sharing parts, one part can retain it). -/
theorem overlap_scan_disjoint_and_collected {α : Type*} [DecidableEq α]
    (cs : List (Finset α)) :
    (∀ i j, i ≠ j →
      (overlap_scan cs).1.getD i ∅ ∩ (overlap_scan cs).1.getD j ∅ = ∅) ∧
    (∀ v i j, i ≠ j → v ∈ cs.getD i ∅ → v ∈ cs.getD j ∅ →
      v ∈ unwanted_children cs ∧
        ∀ k l, v ∈ (overlap_scan cs).1.getD k ∅ →
          v ∈ (overlap_scan cs).1.getD l ∅ → k = l) ∧
    (unwanted_children cs).val.Nodup := by
  have hdisj : ∀ i j, i ≠ j →
      (overlap_scan cs).1.getD i ∅ ∩ (overlap_scan cs).1.getD j ∅ = ∅ := by
    intro i j hij
    by_cases hi : i < cs.length
    · by_cases hj : j < cs.length
      · exact foldl_overlap_disjoint _ _ i j
          (List.mem_product.mpr ⟨List.mem_range.mpr hi, List.mem_range.mpr hj⟩)
          hij
      · have hj' : (overlap_scan cs).1.length ≤ j := by
          rw [overlap_scan_length]; omega
        rw [getD_empty_of_le _ hj', Finset.inter_empty]
    · have hi' : (overlap_scan cs).1.length ≤ i := by
        rw [overlap_scan_length]; omega
      rw [getD_empty_of_le _ hi', Finset.empty_inter]
  refine ⟨hdisj, ?_, (unwanted_children cs).nodup⟩
  intro v i j hij hvi hvj
  have hone : ∀ k l, v ∈ (overlap_scan cs).1.getD k ∅ →
      v ∈ (overlap_scan cs).1.getD l ∅ → k = l := by
    intro k l hk hl
    by_contra hkl
    have hmem : v ∈ (overlap_scan cs).1.getD k ∅ ∩ (overlap_scan cs).1.getD l ∅ :=
      Finset.mem_inter.mpr ⟨hk, hl⟩
    rw [hdisj k l hkl] at hmem
    exact Finset.not_mem_empty v hmem
  have hrm : v ∉ (overlap_scan cs).1.getD i ∅ ∨
      v ∉ (overlap_scan cs).1.getD j ∅ := by
    by_contra hcon
    push_neg at hcon
    exact hij (hone i j hcon.1 hcon.2)
  have hrec := foldl_overlap_recorded
    (List.range cs.length ×ˢ List.range cs.length) cs (cs, ∅)
    (fun v k hv hnv => absurd hv hnv)
  refine ⟨?_, hone⟩
  rcases hrm with hrm | hrm
  · exact hrec v i hvi hrm
  · exact hrec v j hvj hrm

lemma foldl_preserves {β γ : Type*} (P : γ → Prop) (f : γ → β → γ)
    (hf : ∀ s x, P s → P (f s x)) :
    ∀ (l : List β) (s : γ), P s → P (l.foldl f s) := by
  intro l
  induction l with
  | nil => exact fun s hs => hs
  | cons x xs ih => exact fun s hs => ih _ (hf s x hs)

lemma goodFields_addField (s : FieldState) (h : GoodFields s) :
    GoodFields (addField s) := by
  obtain ⟨h1, h2, h3⟩ := h
  refine ⟨?_, ?_, ?_⟩
  · show (s.added ++ [s.nbfields + 1]).Nodup
    rw [List.nodup_append]
    refine ⟨h1, List.nodup_singleton _, fun x hx hx' => ?_⟩
    rw [List.mem_singleton] at hx'
    subst hx'
    have := h2 _ hx
    omega
  · intro i hi
    show i ≤ s.nbfields + 1
    rcases List.mem_append.mp (show i ∈ s.added ++ [s.nbfields + 1] from hi)
      with hi' | hi'
    · exact (h2 i hi').trans (Nat.le_succ _)
    · rw [List.mem_singleton] at hi'
      omega
  · show s.nbfields + 1 = (s.added ++ [s.nbfields + 1]).length
    simp [h3]

lemma goodFields_restrict (s : FieldState) (dim : ℕ) (tags : List ℤ)
    (infield : Option ℕ) (h : GoodFields s) :
    GoodFields (restrict_fields s dim tags infield).1 := by
  unfold restrict_fields
  split
  · exact goodFields_addField s h
  · exact goodFields_addField s h

lemma goodFields_wing_step (mesh : ℚ) (asurf dv wsurf : List ℤ)
    (st : FieldState × ℚ) (sec : WingSectionM) (h : GoodFields st.1) :
    GoodFields ((refine_wing_section_step mesh asurf dv wsurf st sec).1) := by
  dsimp only [refine_wing_section_step]
  exact goodFields_restrict _ _ _ _ (goodFields_addField _
    (goodFields_addField _ (goodFields_restrict _ _ _ _
      (goodFields_restrict _ _ _ _ (goodFields_addField _
        (goodFields_addField _ h))))))

lemma goodFields_farfield_part (dv : List ℤ) (s : FieldState)
    (part : List ℤ × ℚ) (h : GoodFields s) :
    GoodFields
      ((restrict_fields
        (addField (distance_field
          ((restrict_fields (addField (distance_field s 2 part.1).1) 3 dv).1)
          2 part.1).1) 3 dv).1) :=
  goodFields_restrict _ _ _ _ (goodFields_addField _ (goodFields_addField _
    (goodFields_restrict _ _ _ _ (goodFields_addField _
      (goodFields_addField _ h)))))

lemma goodFields_small_step (mts : ℚ) (nb : ℕ) (dv : List ℤ)
    (acc : List ℤ × FieldState) (surf : ℤ × ℚ) (h : GoodFields acc.2) :
    GoodFields ((if surf.2 < nb * mts then
        ((acc.1 ++ [surf.1],
          (restrict_fields (addField ((restrict_fields
            (addField (distance_field acc.2 2 [surf.1]).1) 2 [surf.1]).1))
            3 dv).1)) else acc) : List ℤ × FieldState).2 := by
  split
  · exact goodFields_restrict _ _ _ _ (goodFields_addField _
      (goodFields_restrict _ _ _ _ (goodFields_addField _
        (goodFields_addField _ h))))
  · exact h

lemma goodFields_apply (s : FieldState) (op : FieldOp) (h : GoodFields s) :
    GoodFields (applyFieldOp s op) := by
  cases op with
  | distance dim tags => exact goodFields_addField s h
  | restrict dim tags infield => exact goodFields_restrict s dim tags infield h
  | minimum => exact goodFields_addField s h
  | refineWing dv asurf wsurf secs mesh refine =>
    exact foldl_preserves (fun st : FieldState × ℚ => GoodFields st.1) _
      (fun st sec hst => goodFields_wing_step mesh asurf dv wsurf st sec hst)
      secs (s, refine) h
  | fuselage tags size =>
    exact goodFields_restrict _ _ _ _ (goodFields_addField _
      (goodFields_addField _ h))
  | farfield parts msf acl dv =>
    exact foldl_preserves GoodFields _
      (fun s part hs => goodFields_farfield_part dv s part hs) parts s h
  | smallSurfaces surfs mts nb dv =>
    exact foldl_preserves (fun acc : List ℤ × FieldState => GoodFields acc.2) _
      (fun acc surf hacc => goodFields_small_step mts nb dv acc surf hacc)
      surfs ([], s) h
  | backgroundMin => exact goodFields_addField s h

/-- **C7.** Across one full sizing-field composition run — any sequence of
calls to `distance_field`, `restrict_fields`, `min_fields`,
`refine_wing_section`, `set_fuselage_mesh`, `set_farfield_mesh`,
`refine_small_surfaces` and the inline background-field block sharing one
`mesh_fields` state from its initialization — the log of indices passed
to `field.add` is duplicate-free (so every kernel field is registered at a
distinct index), the number of distinct indices equals the number of
`field.add` calls made, and the final counter equals that call count. -/
theorem field_indices_unique (ops : List FieldOp) :
    (runFieldOps ops).added.Nodup ∧
    (runFieldOps ops).added.toFinset.card = (runFieldOps ops).added.length ∧
    (runFieldOps ops).nbfields = (runFieldOps ops).added.length := by
  have hinit : GoodFields initial_mesh_fields :=
    ⟨List.nodup_nil, by simp [initial_mesh_fields], rfl⟩
  have h : GoodFields (runFieldOps ops) :=
    foldl_preserves GoodFields applyFieldOp goodFields_apply ops
      initial_mesh_fields hinit
  exact ⟨h.1, List.toFinset_card_of_nodup h.1, h.2.2⟩

/-- **C9.** Calling `distance_field` with a dimension outside {1, 2}, or
`restrict_fields` with a dimension outside {2, 3}, raises the `ValueError`
only after the shared counter has been incremented and a new kernel field
has been registered at the fresh index; for `restrict_fields` the fresh
index is nevertheless not appended to the restrict-fields leaf list. -/
theorem invalid_dim_mutates_before_raising (s s' : FieldState)
    (dim1 dim2 : ℕ) (tags tags' : List ℤ) (infield : Option ℕ)
    (h1 : dim1 ≠ 1 ∧ dim1 ≠ 2) (h2 : dim2 ≠ 2 ∧ dim2 ≠ 3) :
    ((distance_field s dim1 tags).2 = some "Dimension must be 1 or 2" ∧
      (distance_field s dim1 tags).1.nbfields = s.nbfields + 1 ∧
      (distance_field s dim1 tags).1.added = s.added ++ [s.nbfields + 1]) ∧
    ((restrict_fields s' dim2 tags' infield).2 = some "Dimension must be 2 or 3" ∧
      (restrict_fields s' dim2 tags' infield).1.nbfields = s'.nbfields + 1 ∧
      (restrict_fields s' dim2 tags' infield).1.added =
        s'.added ++ [s'.nbfields + 1] ∧
      (restrict_fields s' dim2 tags' infield).1.restrict_fields =
        s'.restrict_fields) := by
  have hd : ¬(dim2 = 2 ∨ dim2 = 3) := by
    rintro (h | h)
    · exact h2.1 h
    · exact h2.2 h
  refine ⟨⟨?_, rfl, rfl⟩, ?_⟩
  · simp [distance_field, h1.1, h1.2]
  · rw [restrict_fields, if_neg hd]
    exact ⟨rfl, rfl, rfl, rfl⟩

/-- **C9 (witness).** The concrete instance at dimension 0 on the freshly
initialized state: both calls report the error, yet the counter moved from
0 to 1 and index 1 was registered; the restrict leaf list stayed empty. -/
theorem invalid_dim_mutates_before_raising_witness :
    (distance_field initial_mesh_fields 0 []).2 =
        some "Dimension must be 1 or 2" ∧
    (distance_field initial_mesh_fields 0 []).1.nbfields = 1 ∧
    (restrict_fields initial_mesh_fields 0 [] none).1.added = [1] ∧
    (restrict_fields initial_mesh_fields 0 [] none).1.restrict_fields = [] := by
  have h := invalid_dim_mutates_before_raising initial_mesh_fields
    initial_mesh_fields 0 0 [] [] none (by decide) (by decide)
  refine ⟨h.1.1, h.1.2.1, ?_, h.2.2.2.2⟩
  rw [h.2.2.2.1]
  rfl

lemma head?_scanl {β : Type*} (f : ℚ → β → ℚ) (r : ℚ) (l : List β) :
    (List.scanl f r l).head? = some r := by
  cases l <;> rfl

lemma chain'_le_scanl {β : Type*} (f : ℚ → β → ℚ) (l : List β) (r : ℚ)
    (hf : ∀ rr x, x ∈ l → rr ≤ f rr x) :
    List.Chain' (· ≤ ·) (List.scanl f r l) := by
  induction l generalizing r with
  | nil => simp
  | cons a l ih =>
    simp only [List.scanl_cons, List.nil_append]
    refine List.chain'_cons'.mpr ⟨?_, ih _ (fun rr x hx => hf rr x
      (List.mem_cons_of_mem _ hx))⟩
    intro y hy
    rw [List.append_eq, List.nil_append, head?_scanl] at hy
    have hya : y = f r a := by simpa [eq_comm] using hy
    rw [hya]
    exact hf r a (List.mem_cons_self _ _)

lemma le_update_refine (mesh r : ℚ) (sec : WingSectionM) (hm : 0 < mesh)
    (ht : sec.lines_tags.length = 3 → 0 < te_thickness sec) :
    r ≤ update_refine mesh r sec := by
  unfold update_refine
  split
  · split
    · rename_i h3 hover
      have hq : 0 < mesh / te_thickness sec := div_pos hm (ht h3)
      rw [mul_div_assoc]
      linarith
    · exact le_refl r
  · exact le_refl r

/-- **C10.** Within one `refine_wing_section` call the refinement factor
is never reset between sections: the per-section effective factors (in
processing order) form a non-decreasing sequence, and on the concrete
two-section wing (a thin truncated section followed by a thick one, with
`mesh_size_wings = 1/5` and caller factor 4) the second section's MathEval
factor is 40 — larger than the caller-supplied 4 and larger than that
section's own `2 * mesh_size_wings / thickness = 2`. -/
theorem refine_factor_carries_across_sections (mesh refine : ℚ)
    (secs : List WingSectionM) (hm : 0 < mesh)
    (ht : ∀ sec ∈ secs, sec.lines_tags.length = 3 → 0 < te_thickness sec) :
    List.Chain' (· ≤ ·) (refine_wing_section_refines mesh refine secs) ∧
    refine_wing_section_refines (1/5) 4
      [truncated_section_thin, truncated_section_thick] = [40, 40] ∧
    (4 : ℚ) < 40 ∧
    2 * (1/5) / te_thickness truncated_section_thick < 40 := by
  refine ⟨?_, by norm_num [refine_wing_section_refines, List.scanl,
      update_refine, te_thickness, truncated_section_thin,
      truncated_section_thick, min_def],
    by norm_num, by norm_num [te_thickness, truncated_section_thick]⟩
  exact List.Chain'.tail (chain'_le_scanl _ secs refine
    (fun rr sec hsec => le_update_refine mesh rr sec hm (ht sec hsec)))

/-- **C10 (witness).** The theorem applied at the concrete two-section
wing: the positivity hypotheses hold and the factor sequence `[40, 40]`
is non-decreasing. -/
theorem refine_factor_carries_across_sections_witness :
    List.Chain' (· ≤ ·) (refine_wing_section_refines (1/5) 4
      [truncated_section_thin, truncated_section_thick]) ∧
    refine_wing_section_refines (1/5) 4
      [truncated_section_thin, truncated_section_thick] = [40, 40] := by
  have h := refine_factor_carries_across_sections (1/5) 4
    [truncated_section_thin, truncated_section_thick] (by norm_num)
    (by
      intro sec hsec
      rcases List.mem_cons.mp hsec with hsec | hsec
      · subst hsec
        intro _
        norm_num [te_thickness, truncated_section_thin]
      · rw [List.mem_singleton] at hsec
        subst hsec
        intro _
        norm_num [te_thickness, truncated_section_thick])
  exact ⟨h.1, h.2.1⟩

/-- **C6.** A surface is flagged by `refine_small_surfaces` exactly when
its measured area is below `nb_min_triangle * (√3/4) * mesh_size²`, and
for a flagged (or any) surface the computed
`new_size = sqrt(area / nb_min_triangle / 0.43301270)` round-trips:
`(√3/4) * new_size² * nb_min_triangle` equals the area up to a relative
floating tolerance of `10⁻⁸` (the literal `0.43301270` truncates
`√3/4 = 0.43301270189…`). -/
theorem small_surface_flag_and_roundtrip (area : ℚ) (nb_min_triangle : ℕ)
    (mesh_size : ℝ) (ha : 0 ≤ area) (hn : 0 < nb_min_triangle) :
    (surface_flagged area nb_min_triangle mesh_size ↔
      (area : ℝ) < nb_min_triangle * (Real.sqrt 3 / 4) * mesh_size ^ 2) ∧
    |Real.sqrt 3 / 4 *
        Real.sqrt ((new_mesh_size_sq area nb_min_triangle : ℚ) : ℝ) ^ 2 *
        nb_min_triangle - (area : ℝ)| ≤ (area : ℝ) / 10 ^ 8 := by
  have hs0 : (0 : ℝ) ≤ Real.sqrt 3 := Real.sqrt_nonneg 3
  have hsq : Real.sqrt 3 ^ 2 = 3 := Real.sq_sqrt (by norm_num)
  constructor
  · unfold surface_flagged
    rw [show (nb_min_triangle : ℝ) * (Real.sqrt 3 / 4) * mesh_size ^ 2 =
      nb_min_triangle * (Real.sqrt 3 / 4 * mesh_size ^ 2) from by ring]
  · have hnb : (0 : ℝ) < nb_min_triangle := by exact_mod_cast hn
    have haR : (0 : ℝ) ≤ (area : ℝ) := by exact_mod_cast ha
    have hcast : ((new_mesh_size_sq area nb_min_triangle : ℚ) : ℝ) =
        (area : ℝ) / nb_min_triangle / (43301270 / 100000000) := by
      unfold new_mesh_size_sq
      push_cast
      ring
    have hnn : (0 : ℝ) ≤ ((new_mesh_size_sq area nb_min_triangle : ℚ) : ℝ) := by
      rw [hcast]
      positivity
    rw [Real.sq_sqrt hnn, hcast]
    have hlb : (17320508 : ℝ) / 10 ^ 7 ≤ Real.sqrt 3 := by nlinarith
    have hub : Real.sqrt 3 ≤ (173205081 : ℝ) / 10 ^ 8 := by nlinarith
    have key : Real.sqrt 3 / 4 *
        ((area : ℝ) / nb_min_triangle / (43301270 / 100000000)) *
        nb_min_triangle - area =
        (area : ℝ) * (Real.sqrt 3 * (100000000 / (4 * 43301270)) - 1) := by
      field_simp
      ring
    rw [key, abs_mul, abs_of_nonneg haR]
    have hfac : |Real.sqrt 3 * (100000000 / (4 * 43301270)) - 1| ≤
        1 / 10 ^ 8 := by
      rw [abs_le]
      constructor <;> nlinarith
    calc (area : ℝ) * |Real.sqrt 3 * (100000000 / (4 * 43301270)) - 1|
        ≤ (area : ℝ) * (1 / 10 ^ 8) := by
          exact mul_le_mul_of_nonneg_left hfac haR
      _ = (area : ℝ) / 10 ^ 8 := by ring

/-- **C6 (witness).** The theorem applied at `area = 1`, `nb = 150`,
`mesh_size = 1`. -/
theorem small_surface_flag_and_roundtrip_witness :
    (surface_flagged 1 150 1 ↔
      ((1 : ℚ) : ℝ) < (150 : ℕ) * (Real.sqrt 3 / 4) * (1 : ℝ) ^ 2) ∧
    |Real.sqrt 3 / 4 * Real.sqrt ((new_mesh_size_sq 1 150 : ℚ) : ℝ) ^ 2 *
        (150 : ℕ) - ((1 : ℚ) : ℝ)| ≤ ((1 : ℚ) : ℝ) / 10 ^ 8 :=
  small_surface_flag_and_roundtrip 1 150 1 (by decide) (by decide)

/-- **C8 (amended).** On the (error-free) execution path, `compute_area`
creates exactly one transient physical group, reads the area from the
plugin's output view (the last view), and before returning removes the
created group — restoring the session's physical groups, given that the
created group tag is fresh — but removes **all** views in the session, so
the view list is emptied rather than restored; the views are left "as they
were" only when no views pre-existed.  (The source installs no handler, so
no cleanup at all happens on kernel error paths; kernel calls are total in
this model.) -/
theorem compute_area_transient_state (plugin_area : ℤ → ℚ) (s : GmshSession)
    (tag : ℤ) (hfresh : ∀ p ∈ s.physical_groups, p.2 < s.next_group) :
    (compute_area plugin_area s tag).1.physical_groups = s.physical_groups ∧
    (compute_area plugin_area s tag).1.views = [] ∧
    (compute_area plugin_area s tag).2 = plugin_area tag ∧
    (s.views = [] → (compute_area plugin_area s tag).1.views = s.views) := by
  refine ⟨?_, rfl, ?_, ?_⟩
  · show (s.physical_groups ++ [(2, s.next_group)]).filter
      (fun p => p ≠ (2, s.next_group)) = s.physical_groups
    rw [List.filter_append]
    have h1 : s.physical_groups.filter (fun p => p ≠ (2, s.next_group)) =
        s.physical_groups := by
      rw [List.filter_eq_self]
      intro p hp
      have hlt := hfresh p hp
      simp only [ne_eq, decide_not, Bool.not_eq_true', decide_eq_false_iff_not]
      intro heq
      rw [heq] at hlt
      exact lt_irrefl _ hlt
    have h2 : ([((2 : ℕ), s.next_group)]).filter
        (fun p => p ≠ (2, s.next_group)) = [] := by simp
    rw [h1, h2, List.append_nil]
  · show ((s.views ++ [(s.next_view, plugin_area tag)]).getLastD (0, 0)).2 =
      plugin_area tag
    rw [List.getLastD_concat]
  · intro h
    show ([] : List (ℕ × ℚ)) = s.views
    rw [h]

/-- **C8 (counterexample).** A session holding one pre-existing view
`(7, 3)`: `compute_area` removes it too (`gmsh.view.remove(views)` deletes
every view returned by `getTags`), so the session's views are *not* left
as they were before the call. -/
theorem compute_area_removes_preexisting_views :
    (compute_area (fun _ => 5) ⟨[], [(7, 3)], 1, 8⟩ 42).1.views = [] ∧
    ([((7 : ℕ), (3 : ℚ))] : List (ℕ × ℚ)) ≠ [] := by
  exact ⟨rfl, by decide⟩

/-- **C8 (witness).** The theorem applied to a concrete session with one
pre-existing physical group `(2, 0)` and no views: the group list is
restored and the plugin value is returned. -/
theorem compute_area_transient_state_witness :
    (compute_area (fun _ => 9) ⟨[(2, 0)], [], 5, 0⟩ 77).1.physical_groups =
      [(2, 0)] ∧
    (compute_area (fun _ => 9) ⟨[(2, 0)], [], 5, 0⟩ 77).2 = 9 ∧
    (compute_area (fun _ => 9) ⟨[(2, 0)], [], 5, 0⟩ 77).1.views =
      ([] : List (ℕ × ℚ)) := by
  have h := compute_area_transient_state (fun _ => 9) ⟨[(2, 0)], [], 5, 0⟩ 77
    (by decide)
  exact ⟨h.1, h.2.2.1, h.2.2.2 rfl⟩

/-- **C5 (counterexample).** Three parts all sharing the child `0`: the
pair `(0,1)` strips it from parts 0 and 1, after which every later pair
intersection is empty, so part 2 retains `0` — the claim that a
multiply-present child "has been removed from both parts' sets" fails. -/
theorem overlap_scan_triple_overlap_counterexample :
    (0 ∈ ([{0}, {0}, {0}] : List (Finset ℕ)).getD 0 ∅ ∧
      0 ∈ ([{0}, {0}, {0}] : List (Finset ℕ)).getD 1 ∅) ∧
    0 ∈ (overlap_scan ([{0}, {0}, {0}] : List (Finset ℕ))).1.getD 2 ∅ := by
  decide

end Ceasiompy
